import Mathlib

/-!
Verification of the riftboundtcg-scrapper image scraper (src/main.py).

The Python source is shallowly embedded below.  Pure string processing
(`parse_srcset`, the dedup/filter stage of `extract_image_urls`,
`file_ext_for_url`, `detect_prefix`) is translated function by function.
The pieces of `urllib.parse` the source calls (`urlparse`, `urljoin`,
`ParseResult.geturl`) are embedded from the CPython `urllib/parse.py`
(3.11 line): WHATWG control-character stripping, scheme/netloc/fragment/
query splitting, params splitting for schemes in `uses_params`, and the
RFC-3986-style relative resolution of `urljoin`.  Omitted: the
`ValueError` on unbalanced brackets in a netloc (no URL here contains
brackets) and non-ASCII case mapping in `str.lower` (all inputs are
ASCII).

Network effects are abstracted by boolean oracles: `fetchOk u` tells
whether the GET of `u` succeeds with a 2xx status (`raise_for_status`
does not throw), `headOk u` whether the HEAD existence probe of `u`
returns status 200.  Filesystem writes are modelled as the list of
(category subdirectory, file name) pairs produced in order.
-/

namespace RiftScraper

/-! ## Character and character-list helpers -/

/-- ASCII uppercase letter. -/
def isAsciiUpper (c : Char) : Bool := 'A' ≤ c && c ≤ 'Z'

/-- ASCII lowercase letter. -/
def isAsciiLower (c : Char) : Bool := 'a' ≤ c && c ≤ 'z'

/-- ASCII letter, the `url[0].isascii() and url[0].isalpha()` test of `urlsplit`. -/
def isAsciiAlpha (c : Char) : Bool := isAsciiUpper c || isAsciiLower c

/-- ASCII digit. -/
def isAsciiDigit (c : Char) : Bool := '0' ≤ c && c ≤ '9'

/-- ASCII case lowering, the effect of Python `str.lower` on ASCII text. -/
def lowerChar (c : Char) : Char :=
  if isAsciiUpper c then Char.ofNat (c.toNat + 32) else c

/-- Python `str.strip()` whitespace (the ASCII part): space, tab, LF, CR, VT, FF. -/
def isPyWsChar (c : Char) : Bool :=
  c = ' ' || c = '\t' || c = '\n' || c = '\r' || c = '\x0b' || c = '\x0c'

/-- Split a character list at the first occurrence of `sep`; `none` when absent.
Models Python `s.split(sep, 1)` / `s.find(sep)`. -/
def splitAtFirst (sep : Char) : List Char → Option (List Char × List Char)
  | [] => none
  | c :: rest =>
    if c = sep then some ([], rest)
    else
      match splitAtFirst sep rest with
      | none => none
      | some (a, b) => some (c :: a, b)

/-- Split on every occurrence of `sep`, keeping empty pieces; Python `s.split(sep)`.
The result is always non-empty. -/
def splitOnChar (sep : Char) : List Char → List (List Char)
  | [] => [[]]
  | c :: rest =>
    match splitOnChar sep rest with
    | [] => [[c]]
    | t :: ts => if c = sep then [] :: t :: ts else (c :: t) :: ts

/-- Drop the longest suffix whose characters satisfy `p`. -/
def dropWhileEndL (p : Char → Bool) (l : List Char) : List Char :=
  (l.reverse.dropWhile p).reverse

/-- Python `str.strip()` (ASCII whitespace). -/
def stripWs (l : List Char) : List Char :=
  dropWhileEndL isPyWsChar (l.dropWhile isPyWsChar)

/-! ## `urllib.parse` embedding -/

/-- The six components of the CPython `ParseResult`. -/
structure UrlParts where
  scheme : List Char
  netloc : List Char
  path : List Char
  params : List Char
  query : List Char
  fragment : List Char
deriving DecidableEq

/-- A character allowed in a URL scheme (`scheme_chars` of `urllib.parse`). -/
def schemeChar (c : Char) : Bool :=
  isAsciiAlpha c || isAsciiDigit c || c = '+' || c = '-' || c = '.'

/-- WHATWG "C0 control or space": code points up to U+0020. -/
def isC0OrSpace (c : Char) : Bool := c.toNat ≤ 32

/-- The unsafe bytes `urlsplit` removes wholesale: tab, CR, LF. -/
def isTabCrLf (c : Char) : Bool := c = '\t' || c = '\r' || c = '\n'

/-- Input cleanup of `urlsplit`: strip leading C0-control-or-space characters
(only `lstrip`: trailing space is preserved), then remove every tab/CR/LF. -/
def cleanUrl (l : List Char) : List Char :=
  (l.dropWhile isC0OrSpace).filter (fun c => !(isTabCrLf c))

/-- A netloc terminator: the earliest of `/`, `?`, `#` ends the netloc. -/
def netlocEnd (c : Char) : Bool := c = '/' || c = '?' || c = '#'

/-- CPython `urllib.parse.urlsplit` (params left empty). -/
def urlsplitL (url0 default_scheme : List Char) : UrlParts :=
  let url1 := cleanUrl url0
  let schemeRest : List Char × List Char :=
    match splitAtFirst ':' url1 with
    | some (b :: bs, after) =>
      if isAsciiAlpha b && (b :: bs).all schemeChar then ((b :: bs).map lowerChar, after)
      else (default_scheme, url1)
    | _ => (default_scheme, url1)
  let netlocRest : List Char × List Char :=
    match schemeRest.2 with
    | '/' :: '/' :: r => (r.takeWhile (fun c => !netlocEnd c), r.dropWhile (fun c => !netlocEnd c))
    | _ => ([], schemeRest.2)
  let pathFrag : List Char × List Char :=
    match splitAtFirst '#' netlocRest.2 with
    | some (a, b) => (a, b)
    | none => (netlocRest.2, [])
  let pathQuery : List Char × List Char :=
    match splitAtFirst '?' pathFrag.1 with
    | some (a, b) => (a, b)
    | none => (pathFrag.1, [])
  ⟨schemeRest.1, netlocRest.1, pathQuery.1, [], pathQuery.2, pathFrag.2⟩

/-- List `uses_params` of `urllib.parse`. -/
def uses_params : List String :=
  ["", "ftp", "hdl", "prospero", "http", "imap", "https", "shttp", "rtsp",
   "rtspu", "sip", "sips", "mms", "sftp", "tel"]

/-- List `uses_relative` of `urllib.parse`. -/
def uses_relative : List String :=
  ["", "ftp", "http", "gopher", "nntp", "imap", "wais", "file", "https",
   "shttp", "mms", "prospero", "rtsp", "rtspu", "sftp", "svn", "svn+ssh",
   "ws", "wss"]

/-- List `uses_netloc` of `urllib.parse`. -/
def uses_netloc : List String :=
  ["", "ftp", "http", "gopher", "nntp", "telnet", "imap", "wais", "file",
   "mms", "https", "shttp", "snews", "prospero", "rtsp", "rtspu", "rsync",
   "svn", "svn+ssh", "sftp", "nfs", "git", "git+ssh", "ws", "wss",
   "itms-services"]

/-- Split `path` as (everything up to and including the last `/`, last segment). -/
def lastSegSplit (path : List Char) : List Char × List Char :=
  let segRev := path.reverse.takeWhile (fun c => c ≠ '/')
  (path.take (path.length - segRev.length), segRev.reverse)

/-- Model of `urllib.parse._splitparams`: split params off at the first `;` in the
last path segment (identity when there is none). -/
def splitParamsL (path : List Char) : List Char × List Char :=
  let pre := (lastSegSplit path).1
  let seg := (lastSegSplit path).2
  match splitAtFirst ';' seg with
  | none => (path, [])
  | some (a, b) => (pre ++ a, b)

/-- CPython `urllib.parse.urlparse`: `urlsplit` plus the params split for
schemes in `uses_params`. -/
def urlparseL (url default_scheme : List Char) : UrlParts :=
  let s := urlsplitL url default_scheme
  if String.mk s.scheme ∈ uses_params then
    { s with path := (splitParamsL s.path).1, params := (splitParamsL s.path).2 }
  else s

/-- CPython `urllib.parse.urlunsplit`. -/
def urlunsplitL (scheme netloc path query fragment : List Char) : List Char :=
  let u1 : List Char :=
    if netloc ≠ [] ∨ (path ≠ [] ∧ path.take 2 = ['/', '/']) then
      let p2 : List Char :=
        match path with
        | [] => []
        | c :: cs => if c = '/' then c :: cs else '/' :: c :: cs
      '/' :: '/' :: (netloc ++ p2)
    else path
  let u2 := if scheme ≠ [] then scheme ++ ':' :: u1 else u1
  let u3 := if query ≠ [] then u2 ++ '?' :: query else u2
  if fragment ≠ [] then u3 ++ '#' :: fragment else u3

/-- CPython `urllib.parse.urlunparse` (the `geturl` of a `ParseResult`). -/
def urlunparseL (u : UrlParts) : List Char :=
  urlunsplitL u.scheme u.netloc
    (if u.params ≠ [] then u.path ++ ';' :: u.params else u.path) u.query u.fragment

/-- The `..`/`.` resolution loop of `urljoin` (`resolved_path`), with the
accumulator passed explicitly; `pop` on an empty accumulator is a no-op. -/
def resolveSegs : List (List Char) → List (List Char) → List (List Char)
  | [], acc => acc
  | seg :: rest, acc =>
    if seg = ['.', '.'] then resolveSegs rest acc.dropLast
    else if seg = ['.'] then resolveSegs rest acc
    else resolveSegs rest (acc ++ [seg])

/-- Step `segments[1:-1] = filter(None, segments[1:-1])`: drop empty segments,
keeping the first and last elements. -/
def filterMiddle (segs : List (List Char)) : List (List Char) :=
  match segs with
  | [] => []
  | [a] => [a]
  | a :: rest =>
    match rest.reverse with
    | [] => [a]
    | lastE :: midRev => a :: (midRev.reverse.filter (fun s => s ≠ [])) ++ [lastE]

/-- CPython `urllib.parse.urljoin`. -/
def urljoinL (base url : List Char) : List Char :=
  if base = [] then url
  else if url = [] then base
  else
    let b := urlparseL base []
    let u := urlparseL url b.scheme
    if u.scheme ≠ b.scheme ∨ String.mk u.scheme ∉ uses_relative then url
    else if String.mk u.scheme ∈ uses_netloc ∧ u.netloc ≠ [] then urlunparseL u
    else
      let netl := if String.mk u.scheme ∈ uses_netloc then b.netloc else u.netloc
      if u.path = [] ∧ u.params = [] then
        urlunparseL ⟨u.scheme, netl, b.path, b.params,
          (if u.query = [] then b.query else u.query), u.fragment⟩
      else
        let base_parts0 := splitOnChar '/' b.path
        let base_parts :=
          if base_parts0.getLast? = some [] then base_parts0 else base_parts0.dropLast
        let segments : List (List Char) :=
          match u.path with
          | '/' :: _ => splitOnChar '/' u.path
          | _ => filterMiddle (base_parts ++ splitOnChar '/' u.path)
        let resolved := resolveSegs segments []
        let resolved2 :=
          if segments.getLast? = some ['.'] ∨ segments.getLast? = some ['.', '.'] then
            resolved ++ [[]]
          else resolved
        let joined := List.intercalate ['/'] resolved2
        urlunparseL ⟨u.scheme, netl, (if joined = [] then ['/'] else joined),
          u.params, u.query, u.fragment⟩

/-- Function `urljoin` on strings. -/
def urljoin (base url : String) : String :=
  String.mk (urljoinL base.data url.data)

/-! ## `parse_srcset` (src/main.py lines 19-26) -/

/-- Model of `parse_srcset`: split the attribute on commas; for each part take
`part.strip().split(" ")[0].strip()` and keep it when non-empty. -/
def parse_srcset (srcset : String) : List String :=
  (splitOnChar ',' srcset.data).filterMap (fun part =>
    let url := stripWs ((splitOnChar ' ' (stripWs part)).headD [])
    if url = [] then none else some (String.mk url))

/-! ## The dedup/normalize/filter stage of `extract_image_urls`
(src/main.py lines 72-93)

The collection stage (BeautifulSoup traversal of img/source/style nodes,
lines 37-62, and the raw-HTML CDN regex scan, lines 64-70) is abstracted
by its output: the DOM-derived reference strings (each of which the code
appends as `urljoin(base_url, ref)`) and the regex-matched absolute URLs
(appended verbatim), concatenated in that order into the `urls` list the
dedup loop consumes. -/

/-- Function `normalize` (lines 73-75): `urlparse(u)._replace(query="", fragment="").geturl()`. -/
def normalize (u : String) : String :=
  let p := urlparseL u.data []
  String.mk (urlunparseL ⟨p.scheme, p.netloc, p.path, p.params, [], []⟩)

/-- Lines 83-84: a URL still starting with `//` gets `https:` prepended. -/
def upgradeProtoRelative (u : String) : String :=
  match u.data with
  | '/' :: '/' :: _ => "https:" ++ u
  | _ => u

/-- The allowed image extensions, in the order the source lists them
(line 91 and lines 98). -/
def image_exts : List String := [".png", ".jpg", ".jpeg", ".webp", ".gif"]

/-- The value `urlparse(u).path.lower()` as used by the extension filter (line 92)
and by `file_ext_for_url` (line 97). -/
def pathLower (u : String) : String :=
  String.mk ((urlparseL u.data []).path.map lowerChar)

/-- The predicate of line 92: the parsed path, lowercased, ends with one of the
allowed extensions. -/
def extOk (u : String) : Bool :=
  image_exts.any (fun e => e.data.isSuffixOf (pathLower u).data)

/-- The dedup loop (lines 77-88): skip empty strings, upgrade
protocol-relative URLs, key on `normalize`, keep the first URL per key in
its (upgraded) original form. `seen` is the set of keys already taken. -/
def dedupKeepFirst : List String → List String → List String
  | [], _ => []
  | u :: rest, seen =>
    if u = "" then dedupKeepFirst rest seen
    else
      if normalize (upgradeProtoRelative u) ∈ seen then dedupKeepFirst rest seen
      else upgradeProtoRelative u ::
        dedupKeepFirst rest (normalize (upgradeProtoRelative u) :: seen)

/-- Lines 72-93 applied to the collected `urls` list: dedup then the
extension filter. -/
def extract_from_collected (urls : List String) : List String :=
  (dedupKeepFirst urls []).filter extOk

/-- Model of `extract_image_urls`, with the HTML collection stage abstracted:
`refs` are the attribute/style references (resolved against `base`),
`raw_matches` the verbatim CDN regex matches appended after them. -/
def extract_image_urls (refs raw_matches : List String) (base : String) : List String :=
  extract_from_collected (refs.map (fun r => urljoin base r) ++ raw_matches)

/-! ## `file_ext_for_url` and the category classifier (lines 96-109) -/

/-- Model of `file_ext_for_url`: the first allowed extension the lowercased parsed
path ends with, defaulting to `.jpg`. -/
def file_ext_for_url (u : String) : String :=
  match image_exts.find? (fun e => e.data.isSuffixOf (pathLower u).data) with
  | some e => e
  | none => ".jpg"

/-- The literal `/riftbound/latest/` of `PREFIX_RE`. -/
def riftLit : List Char := "/riftbound/latest/".data

/-- The literal `/cards/` of `PREFIX_RE`. -/
def cardsLit : List Char := "/cards/".data

/-- One anchored attempt of `PREFIX_RE` at the head of `l`: the literal
`/riftbound/latest/`, then a maximal non-empty run of uppercase letters
(greedy `[A-Z]+`; shorter runs cannot be followed by `/`, so the maximal
run is the only candidate), then the literal `/cards/`. -/
def matchRiftAt (l : List Char) : Option (List Char) :=
  if l.take 18 = riftLit then
    let rest := l.drop 18
    let caps := rest.takeWhile isAsciiUpper
    if caps ≠ [] ∧ (rest.drop caps.length).take 7 = cardsLit then some caps else none
  else none

/-- Model of `re.search` of `PREFIX_RE`: the leftmost position at which the pattern
matches. -/
def findRiftMatch : List Char → Option (List Char)
  | [] => none
  | c :: rest =>
    match matchRiftAt (c :: rest) with
    | some caps => some caps
    | none => findRiftMatch rest

/-- Model of `detect_prefix` (lines 107-109): search `PREFIX_RE` in `urlparse(u).path`,
returning the captured group or `None`. -/
def detect_prefix_of (u : String) : Option String :=
  (findRiftMatch (urlparseL u.data []).path).map String.mk

/-! ## `download_images` (lines 112-139) -/

/-- Python `f"{n:03d}"`: decimal rendering left-padded with zeros to width 3. -/
def pad3 (n : Nat) : String :=
  String.mk (List.replicate (3 - (Nat.repr n).length) '0' ++ (Nat.repr n).data)

/-- The download loop (lines 125-139) with the per-category counters as an
explicit map (every category starts at 1, the `counters.get(prefix, 1)`
default).  `fetchOk u` abstracts the GET of `u` succeeding with a 2xx
status; the result lists the (category, file name) writes in order.  On a
failure nothing is written and the counters are left untouched. -/
def download_loop (fetchOk : String → Bool) : List String → (String → Nat) → List (String × String)
  | [], _ => []
  | u :: rest, counters =>
    if fetchOk u then
      ((detect_prefix_of u).getD "misc",
          pad3 (counters ((detect_prefix_of u).getD "misc")) ++ file_ext_for_url u) ::
        download_loop fetchOk rest
          (fun k => if k = (detect_prefix_of u).getD "misc"
            then counters ((detect_prefix_of u).getD "misc") + 1 else counters k)
    else download_loop fetchOk rest counters

/-- Model of `download_images`: the loop started with an empty counters dict. -/
def download_images (fetchOk : String → Bool) (urls : List String) : List (String × String) :=
  download_loop fetchOk urls (fun _ => 1)

/-! ## `try_head` (lines 142-147) -/

/-- The observable outcome of `requests.head(url, allow_redirects=True)`:
either a final response with its status code, or a raised
`requests.RequestException`. -/
inductive HeadOutcome where
  | response (status : Nat)
  | exception
deriving DecidableEq

/-- Model of `try_head`: `status == 200` on a response, `False` when the request
raised; total, so the caller never sees an exception. -/
def try_head (o : HeadOutcome) : Bool :=
  match o with
  | HeadOutcome.response status => status == 200
  | HeadOutcome.exception => false

/-! ## `fallback_guess_by_prefixes` (lines 150-196) -/

/-- The candidate URL for code number `i` of set `pfx` (line 166 and 176):
`base.format(code=code) + fname` with `code = f"{pfx}-{i:03d}"`. -/
def candidate_url (pfx : String) (i : Nat) (fname : String) : String :=
  "https://cdn.rgpub.io/public/live/map/riftbound/latest/" ++ pfx ++ "/cards/" ++
    (pfx ++ "-" ++ pad3 i) ++ "/" ++ fname

/-- The per-prefix probe loop (lines 170-196), abstracted over the HEAD
probe (`H`, the result of `try_head` on a candidate) and the GET download
(`G`; `false` covers both a network error and `raise_for_status`).

Arguments after `m` (the `miss_limit`): remaining iterations of
`range(start, 2000)` as fuel, the current code number `i`, the current
`miss_streak`, and the next save index `idx`.  The result is the list of
probed code numbers and the list of file names saved under the prefix
subdirectory, in order.  A HEAD hit resets `miss_streak` to 0 before the
GET is attempted, so a failed GET still resets the streak and leaves
`idx` unchanged; the saved name is always `f"{idx:03d}.jpg"` (line 188). -/
def scan_from (H G : String → Bool) (pfx fname : String) (m : Nat) :
    Nat → Nat → Nat → Nat → List Nat × List String
  | 0, _, _, _ => ([], [])
  | fuel + 1, i, ms, idx =>
    if H (candidate_url pfx i fname) then
      if G (candidate_url pfx i fname) then
        (i :: (scan_from H G pfx fname m fuel (i + 1) 0 (idx + 1)).1,
         (pad3 idx ++ ".jpg") :: (scan_from H G pfx fname m fuel (i + 1) 0 (idx + 1)).2)
      else
        (i :: (scan_from H G pfx fname m fuel (i + 1) 0 idx).1,
         (scan_from H G pfx fname m fuel (i + 1) 0 idx).2)
    else
      if m ≤ ms + 1 then ([i], [])
      else
        (i :: (scan_from H G pfx fname m fuel (i + 1) (ms + 1) idx).1,
         (scan_from H G pfx fname m fuel (i + 1) (ms + 1) idx).2)

/-- Line 175: `(asset or "full-desktop.jpg").lstrip("/")` (`None` and the
empty string both fall back to the default). -/
def asset_fname (asset : Option String) : String :=
  String.mk (((if (asset.getD "") = "" then "full-desktop.jpg"
    else asset.getD "") : String).data.dropWhile (fun c => c = '/'))

/-- One prefix of `fallback_guess_by_prefixes`: scan codes from `start`
up to the fixed bound 2000, stopping after `miss_limit` consecutive
misses; saving starts at index 1. -/
def fallback_scan_one (H G : String → Bool) (pfx : String) (asset : Option String)
    (start miss_limit : Nat) : List Nat × List String :=
  scan_from H G pfx (asset_fname asset) miss_limit (2000 - start) start 0 1

/-- Model of `fallback_guess_by_prefixes` over its prefix list: each prefix is
scanned independently (the miss streak and save index are per-prefix). -/
def fallback_guess_by_prefixes (H G : String → Bool) (prefixes : List String)
    (asset : Option String) (start miss_limit : Nat) :
    List (String × List Nat × List String) :=
  prefixes.map (fun p => (p, fallback_scan_one H G p asset start miss_limit))

/-! ## Specification-side predicates and concrete oracles for witnesses -/

/-- Predicate: `u` is the first collected URL with its dedup key, kept in its
original (query/fragment retaining, protocol-upgraded) form: some
decomposition of the collected list puts `v` first among the non-empty
entries whose normalized upgraded form equals `normalize u`, and `u` is
`v` after the protocol-relative upgrade. -/
def FirstKept (urls : List String) (u : String) : Prop :=
  ∃ pre v post, urls = pre ++ v :: post ∧ v ≠ "" ∧ upgradeProtoRelative v = u ∧
    ∀ w ∈ pre, w ≠ "" → normalize (upgradeProtoRelative w) ≠ normalize u

/-- Saved file names `idx`, `idx+1`, …: `k` consecutive `f"{n:03d}.jpg"`
names starting at `idx` — the gap-free shape of fallback save lists. -/
def rangeSaves (idx : Nat) : Nat → List String
  | 0 => []
  | k + 1 => (pad3 idx ++ ".jpg") :: rangeSaves (idx + 1) k

/-- HEAD oracle hitting exactly codes 1 and 2 of OGS (witness for C1). -/
def hOkC1 : String → Bool := fun s =>
  s == candidate_url "OGS" 1 "full-desktop.jpg" || s == candidate_url "OGS" 2 "full-desktop.jpg"

/-- GET oracle that always succeeds. -/
def gOkAll : String → Bool := fun _ => true

/-- HEAD oracle hitting exactly code 1 of OGS for a `.png` asset
(counterexample for C7). -/
def hOkC7 : String → Bool := fun s => s == candidate_url "OGS" 1 "full-desktop.png"

/-- HEAD oracle hitting exactly code 1 of OGS (witness for C10). -/
def hOkC10 : String → Bool := fun s => s == candidate_url "OGS" 1 "full-desktop.jpg"

/-- GET oracle that always fails (witness for C10). -/
def gFailAll : String → Bool := fun _ => false

/-- Fetch oracle failing exactly on the middle URL of the C4 witness batch. -/
def fOkC4 : String → Bool := fun s => !(s == "https://cdn.example.com/bad.jpg")

/-! ## Helper lemmas -/

/-- The list `(a ++ b).data` unfolds to the concatenation of the character lists. -/
theorem strData_append (a b : String) : (a ++ b).data = a.data ++ b.data := rfl

/-- Unfolding `dropWhile` through an append, in a single closed form. -/
theorem dropWhile_append_split (p : Char → Bool) :
    ∀ x y : List Char, (x ++ y).dropWhile p =
      if x.dropWhile p = [] then y.dropWhile p else x.dropWhile p ++ y := by
  intro x y
  induction x with
  | nil => simp
  | cons c x ih =>
    by_cases hc : p c
    · simpa [List.dropWhile_cons, hc] using ih
    · simp [List.dropWhile_cons, hc]

/-- Function `dropWhile` keeps a list none of whose elements satisfies `p`. -/
theorem dropWhile_eq_self_of_all (p : Char → Bool) :
    ∀ l : List Char, (∀ c ∈ l, p c = false) → l.dropWhile p = l := by
  intro l
  induction l with
  | nil => intro _; rfl
  | cons c l ih =>
    intro h
    simp only [List.dropWhile_cons, h c (List.mem_cons_self c l), Bool.false_eq_true, if_false]

/-- Dropping a trailing run of `p`-characters passes over a clean left part. -/
theorem dropWhileEndL_append_of_all (p : Char → Bool) (a m : List Char)
    (ha : ∀ c ∈ a, p c = false) :
    dropWhileEndL p (a ++ m) = a ++ dropWhileEndL p m := by
  unfold dropWhileEndL
  rw [List.reverse_append, dropWhile_append_split]
  have hrev : a.reverse.dropWhile p = a.reverse :=
    dropWhile_eq_self_of_all p a.reverse (fun c hc => ha c (List.mem_reverse.1 hc))
  by_cases hm : m.reverse.dropWhile p = []
  · simp [hm, hrev]
  · simp [hm, hrev]

/-- Function `stripWs` keeps a list with no whitespace at all. -/
theorem stripWs_eq_self_of_all (l : List Char) (h : ∀ c ∈ l, isPyWsChar c = false) :
    stripWs l = l := by
  unfold stripWs dropWhileEndL
  rw [dropWhile_eq_self_of_all _ _ h,
    dropWhile_eq_self_of_all _ _ (fun c hc => h c (List.mem_reverse.1 hc)), List.reverse_reverse]

/-- Function `splitOnChar` never returns the empty list. -/
theorem splitOnChar_ne_nil (sep : Char) : ∀ l : List Char, splitOnChar sep l ≠ [] := by
  intro l
  induction l with
  | nil => simp [splitOnChar]
  | cons c rest ih =>
    simp only [splitOnChar]
    cases h : splitOnChar sep rest with
    | nil => simp
    | cons t ts => by_cases hc : c = sep <;> simp [hc]

/-- Splitting a list without the separator yields the singleton. -/
theorem splitOnChar_no_sep (sep : Char) :
    ∀ l : List Char, (∀ c ∈ l, c ≠ sep) → splitOnChar sep l = [l] := by
  intro l h
  induction l with
  | nil => rfl
  | cons c rest ih =>
    have hrec : splitOnChar sep rest = [rest] :=
      ih (fun d hd => h d (List.mem_cons_of_mem c hd))
    simp [splitOnChar, hrec, h c (List.mem_cons_self c rest)]

/-- Splitting starts with the separator-free part before the first separator. -/
theorem splitOnChar_append_sep (sep : Char) :
    ∀ a r : List Char, (∀ c ∈ a, c ≠ sep) →
      splitOnChar sep (a ++ sep :: r) = a :: splitOnChar sep r := by
  intro a
  induction a with
  | nil =>
    intro r _
    simp only [List.nil_append, splitOnChar]
    cases h : splitOnChar sep r with
    | nil => exact absurd h (splitOnChar_ne_nil sep r)
    | cons t ts => simp
  | cons c a ih =>
    intro r h
    have hrec := ih r (fun d hd => h d (List.mem_cons_of_mem c hd))
    simp [splitOnChar, hrec, h c (List.mem_cons_self c a)]

/-- A space is Python whitespace. -/
theorem space_isPyWs : isPyWsChar ' ' = true := rfl

/-- One unfolding of the fallback scan loop. -/
theorem scan_from_succ (H G : String → Bool) (pfx fname : String) (m fuel i ms idx : Nat) :
    scan_from H G pfx fname m (fuel + 1) i ms idx =
      if H (candidate_url pfx i fname) then
        if G (candidate_url pfx i fname) then
          (i :: (scan_from H G pfx fname m fuel (i + 1) 0 (idx + 1)).1,
           (pad3 idx ++ ".jpg") :: (scan_from H G pfx fname m fuel (i + 1) 0 (idx + 1)).2)
        else
          (i :: (scan_from H G pfx fname m fuel (i + 1) 0 idx).1,
           (scan_from H G pfx fname m fuel (i + 1) 0 idx).2)
      else
        if m ≤ ms + 1 then ([i], [])
        else
          (i :: (scan_from H G pfx fname m fuel (i + 1) (ms + 1) idx).1,
           (scan_from H G pfx fname m fuel (i + 1) (ms + 1) idx).2) := rfl

/-- Every save list the fallback scan produces is a gap-free run of
`f"{n:03d}.jpg"` names starting at the current save index. -/
theorem scan_saves_rangeSaves (H G : String → Bool) (pfx fname : String) (m : Nat) :
    ∀ fuel i ms idx, ∃ k, (scan_from H G pfx fname m fuel i ms idx).2 = rangeSaves idx k := by
  intro fuel
  induction fuel with
  | zero => intro i ms idx; exact ⟨0, rfl⟩
  | succ fuel ih =>
    intro i ms idx
    rw [scan_from_succ]
    by_cases hH : H (candidate_url pfx i fname)
    · by_cases hG : G (candidate_url pfx i fname)
      · obtain ⟨k, hk⟩ := ih (i + 1) 0 (idx + 1)
        exact ⟨k + 1, by simp [hH, hG, hk, rangeSaves]⟩
      · obtain ⟨k, hk⟩ := ih (i + 1) 0 idx
        exact ⟨k, by simp [hH, hG, hk]⟩
    · by_cases hm : m ≤ ms + 1
      · exact ⟨0, by simp [hH, hm, rangeSaves]⟩
      · obtain ⟨k, hk⟩ := ih (i + 1) (ms + 1) idx
        exact ⟨k, by simp [hH, hm, hk]⟩

/-- Members of a `rangeSaves` run are `f"{n:03d}.jpg"` names. -/
theorem mem_rangeSaves : ∀ (k idx : Nat) (s : String),
    s ∈ rangeSaves idx k → ∃ n, s = pad3 n ++ ".jpg" := by
  intro k
  induction k with
  | zero => intro idx s h; simp [rangeSaves] at h
  | succ k ih =>
    intro idx s h
    rcases List.mem_cons.1 h with rfl | h2
    · exact ⟨idx, rfl⟩
    · exact ih (idx + 1) s h2

/-- An element of the output of the dedup loop has a key outside `seen`. -/
theorem dedupKeepFirst_key_not_seen :
    ∀ (urls seen : List String) (u : String),
      u ∈ dedupKeepFirst urls seen → normalize u ∉ seen := by
  intro urls
  induction urls with
  | nil => intro seen u h; simp [dedupKeepFirst] at h
  | cons a rest ih =>
    intro seen u h
    by_cases ha : a = ""
    · rw [dedupKeepFirst, if_pos ha] at h
      exact ih seen u h
    · rw [dedupKeepFirst, if_neg ha] at h
      by_cases hk : normalize (upgradeProtoRelative a) ∈ seen
      · rw [if_pos hk] at h
        exact ih seen u h
      · rw [if_neg hk] at h
        rcases List.mem_cons.1 h with rfl | h2
        · exact hk
        · intro hs
          exact (ih _ u h2) (List.mem_cons_of_mem _ hs)

/-- The output of the dedup loop has pairwise distinct keys. -/
theorem dedupKeepFirst_pairwise :
    ∀ (urls seen : List String),
      (dedupKeepFirst urls seen).Pairwise (fun a b => normalize a ≠ normalize b) := by
  intro urls
  induction urls with
  | nil => intro seen; simp [dedupKeepFirst]
  | cons a rest ih =>
    intro seen
    by_cases ha : a = ""
    · rw [dedupKeepFirst, if_pos ha]; exact ih seen
    · rw [dedupKeepFirst, if_neg ha]
      by_cases hk : normalize (upgradeProtoRelative a) ∈ seen
      · rw [if_pos hk]; exact ih seen
      · rw [if_neg hk]
        refine List.Pairwise.cons ?_ (ih _)
        intro b hb heq
        exact (dedupKeepFirst_key_not_seen rest _ b hb) (heq ▸ List.mem_cons_self _ _)

/-- Every element of the output of the dedup loop is the first collected URL of
its key, kept in original (upgraded) form. -/
theorem dedupKeepFirst_first_kept :
    ∀ (urls seen : List String) (u : String),
      u ∈ dedupKeepFirst urls seen → FirstKept urls u := by
  intro urls
  induction urls with
  | nil => intro seen u h; simp [dedupKeepFirst] at h
  | cons a rest ih =>
    intro seen u h
    by_cases ha : a = ""
    · rw [dedupKeepFirst, if_pos ha] at h
      obtain ⟨pre, v, post, heq, hv, hupg, hmin⟩ := ih seen u h
      refine ⟨a :: pre, v, post, by rw [heq, List.cons_append], hv, hupg, ?_⟩
      intro w hw hwne
      rcases List.mem_cons.1 hw with rfl | hw2
      · exact absurd ha hwne
      · exact hmin w hw2 hwne
    · rw [dedupKeepFirst, if_neg ha] at h
      by_cases hk : normalize (upgradeProtoRelative a) ∈ seen
      · rw [if_pos hk] at h
        have hnot := dedupKeepFirst_key_not_seen rest seen u h
        obtain ⟨pre, v, post, heq, hv, hupg, hmin⟩ := ih seen u h
        refine ⟨a :: pre, v, post, by rw [heq, List.cons_append], hv, hupg, ?_⟩
        intro w hw hwne
        rcases List.mem_cons.1 hw with rfl | hw2
        · intro hcontra
          exact hnot (hcontra ▸ hk)
        · exact hmin w hw2 hwne
      · rw [if_neg hk] at h
        rcases List.mem_cons.1 h with rfl | h2
        · exact ⟨[], a, rest, rfl, ha, rfl, by simp⟩
        · have hnot := dedupKeepFirst_key_not_seen rest _ u h2
          obtain ⟨pre, v, post, heq, hv, hupg, hmin⟩ := ih _ u h2
          refine ⟨a :: pre, v, post, by rw [heq, List.cons_append], hv, hupg, ?_⟩
          intro w hw hwne
          rcases List.mem_cons.1 hw with rfl | hw2
          · intro hcontra
            exact hnot (hcontra ▸ List.mem_cons_self _ _)
          · exact hmin w hw2 hwne

/-! ## The claims -/

/-- Claim C9: `try_head` returns `true` exactly when the HEAD request
(redirects followed) ends in final status 200; a raised request exception
yields `false`; being a total function of the request outcome, it never
raises. -/
theorem c9_try_head_iff_status_200 (o : HeadOutcome) :
    try_head o = true ↔ o = HeadOutcome.response 200 := by
  cases o with
  | response s => simp [try_head]
  | exception => simp [try_head]

/-- Claim C5: with all downloads succeeding, two URLs classified `OGS`
followed by an unclassifiable URL are written as `001.jpg` and `002.jpg`
under the `OGS` subdirectory and `001.jpg` under `misc` (per-category
counters start at 1; a failed classification routes to `misc`). -/
theorem c5_download_categories_and_counters :
    download_images (fun _ => true)
      ["https://cdn.rgpub.io/public/live/map/riftbound/latest/OGS/cards/OGS-001/full-desktop.jpg",
       "https://cdn.rgpub.io/public/live/map/riftbound/latest/OGS/cards/OGS-002/full-desktop.jpg",
       "https://example.com/misc-pic.jpg"]
    = [("OGS", "001.jpg"), ("OGS", "002.jpg"), ("misc", "001.jpg")] := by decide

/-- Claim C6 counterexample: with the base URL `http://example.com/`, the
protocol-relative reference `//cdn.example.com/a.jpg` comes out of the
extractor as `http://cdn.example.com/a.jpg` — an `http:`-scheme URL, not
`https:` — because `urljoin` resolves it with the scheme of the base before the
`https:` upgrade is consulted. -/
theorem c6_counterexample :
    extract_image_urls ["//cdn.example.com/a.jpg"] [] "http://example.com/"
      = ["http://cdn.example.com/a.jpg"] ∧
    (urlparseL "http://cdn.example.com/a.jpg".data []).scheme ≠ "https".data :=
  ⟨by decide, by decide⟩

/-- Claim C6 amended: a protocol-relative reference adopts the scheme of
the base URL it is resolved against — `https:` with the actual
`https:` base, `http:` with an `http:` base — and the explicit
`https:` upgrade applies when the URL is still protocol-relative after
resolution (e.g. with an empty base). -/
theorem c6_amended_scheme_follows_base :
    extract_image_urls ["//cdn.example.com/a.jpg"] []
        "https://riftbound.leagueoflegends.com/en-us/tcg-cards/"
      = ["https://cdn.example.com/a.jpg"] ∧
    extract_image_urls ["//cdn.example.com/a.jpg"] [] "http://example.com/"
      = ["http://cdn.example.com/a.jpg"] ∧
    extract_image_urls ["//cdn.example.com/a.jpg"] [] ""
      = ["https://cdn.example.com/a.jpg"] :=
  ⟨by decide, by decide, by decide⟩

/-- Claim C7 counterexample: a fallback run requesting the asset
`full-desktop.png` (HEAD hit at code 1 only, GET succeeding) saves the
file as `001.jpg` — the fixed `.jpg` of line 188 — not with the `.png`
extension of the fetched asset. -/
theorem c7_counterexample :
    (fallback_scan_one hOkC7 gOkAll "OGS" (some "full-desktop.png") 1 3).2 = ["001.jpg"] ∧
    ".png".data.isSuffixOf "001.jpg".data = false :=
  ⟨by decide, by decide⟩

/-- Claim C8 counterexample: in the srcset entry `a.jpg\t1x` the descriptor
is separated by a tab, not a space; `split(" ")` does not split there, so
the parser yields the whole entry `a.jpg\t1x` instead of the first
whitespace-delimited token `a.jpg`. -/
theorem c8_counterexample :
    parse_srcset "a.jpg\t1x" = ["a.jpg\t1x"] ∧ parse_srcset "a.jpg\t1x" ≠ ["a.jpg"] :=
  ⟨by decide, by decide⟩

/-- Claim C2: for every collected URL list (hence for every HTML input and
base URL), the extractor output has no two entries equal after stripping
query and fragment, and every output entry is the first collected URL
carrying its stripped key, kept in its original (unstripped, protocol-
upgraded) form. -/
theorem c2_no_stripped_duplicates_first_wins (refs raws : List String) (base : String) :
    (extract_image_urls refs raws base).Pairwise (fun a b => normalize a ≠ normalize b) ∧
    ∀ u ∈ extract_image_urls refs raws base,
      FirstKept (refs.map (fun r => urljoin base r) ++ raws) u := by
  constructor
  · simp only [extract_image_urls, extract_from_collected]
    exact List.Pairwise.sublist (List.filter_sublist _) (dedupKeepFirst_pairwise _ [])
  · intro u hu
    simp only [extract_image_urls, extract_from_collected] at hu
    exact dedupKeepFirst_first_kept _ [] u (List.mem_filter.1 hu).1

/-- Witness for C2 at a concrete input: of two collected URLs differing
only in their query string, the first is in the output and is the first
occurrence of its stripped key, kept unstripped. -/
theorem c2_witness :
    ("https://h.example/a.jpg?x=1" ∈
      extract_image_urls [] ["https://h.example/a.jpg?x=1", "https://h.example/a.jpg?x=2"] "") ∧
    FirstKept (List.map (fun r => urljoin "" r) [] ++
        ["https://h.example/a.jpg?x=1", "https://h.example/a.jpg?x=2"])
      "https://h.example/a.jpg?x=1" :=
  ⟨by decide,
   (c2_no_stripped_duplicates_first_wins []
      ["https://h.example/a.jpg?x=1", "https://h.example/a.jpg?x=2"] "").2
     "https://h.example/a.jpg?x=1" (by decide)⟩

/-- Claim C3: every URL in the output of the extractor has a parsed path that,
lowercased, ends with one of the five allowed image extensions. -/
theorem c3_output_extensions (refs raws : List String) (base u : String)
    (hu : u ∈ extract_image_urls refs raws base) :
    ∃ e ∈ image_exts, e.data.isSuffixOf (pathLower u).data = true := by
  simp only [extract_image_urls, extract_from_collected] at hu
  have h2 := (List.mem_filter.1 hu).2
  simp only [extOk] at h2
  simpa using List.any_eq_true.1 h2

/-- Witness for C3 at a concrete input (uppercase extension, query string). -/
theorem c3_witness :
    ("https://cdn.example.com/card.PNG?v=1" ∈
      extract_image_urls [] ["https://cdn.example.com/card.PNG?v=1"] "") ∧
    ∃ e ∈ image_exts,
      e.data.isSuffixOf (pathLower "https://cdn.example.com/card.PNG?v=1").data = true :=
  ⟨by decide,
   c3_output_extensions [] ["https://cdn.example.com/card.PNG?v=1"] ""
     "https://cdn.example.com/card.PNG?v=1" (by decide)⟩

/-- Claim C4: a URL whose fetch fails contributes no write and leaves the
counters untouched, and the rest of the batch is processed exactly as if
the failing URL were absent. -/
theorem c4_failure_skips_url (F : String → Bool) (pre post : List String) (u : String)
    (c : String → Nat) (hf : F u = false) :
    download_loop F (pre ++ u :: post) c = download_loop F (pre ++ post) c := by
  induction pre generalizing c with
  | nil => simp [download_loop, hf]
  | cons a pre ih =>
    simp only [List.cons_append, download_loop]
    by_cases hFa : F a
    · simp [hFa, ih]
    · simp [hFa, ih]

/-- Witness for C4: in a batch of three with the middle fetch failing, the
batch behaves as the two-element batch, and both remaining URLs are saved. -/
theorem c4_witness :
    fOkC4 "https://cdn.example.com/bad.jpg" = false ∧
    download_loop fOkC4
        (["https://cdn.example.com/ok1.png"] ++
          "https://cdn.example.com/bad.jpg" :: ["https://cdn.example.com/ok2.gif"])
        (fun _ => 1)
      = download_loop fOkC4
          (["https://cdn.example.com/ok1.png"] ++ ["https://cdn.example.com/ok2.gif"])
          (fun _ => 1) ∧
    download_images fOkC4
        ["https://cdn.example.com/ok1.png", "https://cdn.example.com/ok2.gif"]
      = [("misc", "001.png"), ("misc", "002.gif")] :=
  ⟨by decide,
   c4_failure_skips_url fOkC4 ["https://cdn.example.com/ok1.png"]
     ["https://cdn.example.com/ok2.gif"] "https://cdn.example.com/bad.jpg"
     (fun _ => 1) (by decide),
   by decide⟩

/-- Claim C1: with `miss_limit = 3`, HEAD hits at codes 1 and 2 and misses
at the probed codes 3, 4, 5 (the prober probes nothing beyond 5), the scan
probes exactly codes 1-5 — stopping the prefix after the three consecutive
misses 3, 4, 5 — and saves exactly the two files `001.jpg`, `002.jpg`
(the save index is independent of the probe index). -/
theorem c1_two_hits_then_three_misses (H G : String → Bool) (pfx fname : String) (n : Nat)
    (h1 : H (candidate_url pfx 1 fname) = true)
    (h2 : H (candidate_url pfx 2 fname) = true)
    (h3 : H (candidate_url pfx 3 fname) = false)
    (h4 : H (candidate_url pfx 4 fname) = false)
    (h5 : H (candidate_url pfx 5 fname) = false)
    (hg1 : G (candidate_url pfx 1 fname) = true)
    (hg2 : G (candidate_url pfx 2 fname) = true) :
    scan_from H G pfx fname 3 (n + 5) 1 0 1 = ([1, 2, 3, 4, 5], ["001.jpg", "002.jpg"]) := by
  rw [show n + 5 = (n + 4) + 1 from rfl, scan_from_succ]
  simp only [h1, hg1, reduceIte]
  rw [show n + 4 = (n + 3) + 1 from rfl, scan_from_succ]
  simp only [h2, hg2, reduceIte]
  rw [show n + 3 = (n + 2) + 1 from rfl, scan_from_succ]
  simp only [h3, Bool.false_eq_true, if_false]
  rw [if_neg (show ¬ ((3 : Nat) ≤ 0 + 1) by omega)]
  rw [show n + 2 = (n + 1) + 1 from rfl, scan_from_succ]
  simp only [h4, Bool.false_eq_true, if_false]
  rw [if_neg (show ¬ ((3 : Nat) ≤ 0 + 1 + 1) by omega)]
  rw [scan_from_succ]
  simp only [h5, Bool.false_eq_true, if_false]
  rw [if_pos (show (3 : Nat) ≤ 0 + 1 + 1 + 1 by omega)]
  rfl

/-- Witness for C1: the concrete HEAD oracle hitting exactly OGS codes 1
and 2, run through `fallback_scan_one` with the default asset, `start = 1`
and `miss_limit = 3`. -/
theorem c1_witness :
    fallback_scan_one hOkC1 gOkAll "OGS" (some "full-desktop.jpg") 1 3
      = ([1, 2, 3, 4, 5], ["001.jpg", "002.jpg"]) :=
  c1_two_hits_then_three_misses hOkC1 gOkAll "OGS" "full-desktop.jpg" 1994
    (by decide) (by decide) (by decide) (by decide) (by decide) rfl rfl

/-- Claim C10: a candidate whose HEAD probe hits but whose GET fails still
resets the consecutive-miss counter to 0 and leaves the save index
unchanged (the recursive call proceeds with `ms = 0` and the same `idx`),
and every save list the scan produces is a gap-free run of consecutive
`f"{n:03d}.jpg"` names from the current save index. -/
theorem c10_get_failure_resets_streak (H G : String → Bool) (pfx fname : String)
    (m fuel i ms idx : Nat)
    (hh : H (candidate_url pfx i fname) = true)
    (hg : G (candidate_url pfx i fname) = false) :
    scan_from H G pfx fname m (fuel + 1) i ms idx
      = (i :: (scan_from H G pfx fname m fuel (i + 1) 0 idx).1,
         (scan_from H G pfx fname m fuel (i + 1) 0 idx).2) ∧
    ∀ fuel2 i2 ms2 idx2, ∃ k,
      (scan_from H G pfx fname m fuel2 i2 ms2 idx2).2 = rangeSaves idx2 k := by
  refine ⟨?_, scan_saves_rangeSaves H G pfx fname m⟩
  rw [scan_from_succ]
  simp [hh, hg]

/-- Witness for C10: HEAD hits OGS code 1, every GET fails; the step
equality and the gap-free save shape at that concrete state. -/
theorem c10_witness :
    hOkC10 (candidate_url "OGS" 1 "full-desktop.jpg") = true ∧
    gFailAll (candidate_url "OGS" 1 "full-desktop.jpg") = false ∧
    (scan_from hOkC10 gFailAll "OGS" "full-desktop.jpg" 3 (4 + 1) 1 0 1
        = (1 :: (scan_from hOkC10 gFailAll "OGS" "full-desktop.jpg" 3 4 (1 + 1) 0 1).1,
           (scan_from hOkC10 gFailAll "OGS" "full-desktop.jpg" 3 4 (1 + 1) 0 1).2) ∧
      ∀ fuel2 i2 ms2 idx2, ∃ k,
        (scan_from hOkC10 gFailAll "OGS" "full-desktop.jpg" 3 fuel2 i2 ms2 idx2).2
          = rangeSaves idx2 k) :=
  ⟨by decide, rfl,
   c10_get_failure_resets_streak hOkC10 gFailAll "OGS" "full-desktop.jpg" 3 4 1 0 1
     (by decide) rfl⟩

/-- Claim C7 amended: every file the downloader writes is named by a
`f"{n:03d}"` sequence number plus the extension inferred from the path of that URL by `file_ext_for_url`; the fallback prober instead always appends the
fixed `.jpg`, regardless of the extension of the requested asset. -/
theorem c7_amended_filenames :
    (∀ (F : String → Bool) (urls : List String) (c : String → Nat) (w : String × String),
      w ∈ download_loop F urls c →
      ∃ n u, u ∈ urls ∧ w.2 = pad3 n ++ file_ext_for_url u) ∧
    (∀ (H G : String → Bool) (pfx fname : String) (m fuel i ms idx : Nat) (s : String),
      s ∈ (scan_from H G pfx fname m fuel i ms idx).2 → ∃ n, s = pad3 n ++ ".jpg") := by
  constructor
  · intro F urls
    induction urls with
    | nil => intro c w h; simp [download_loop] at h
    | cons a rest ih =>
      intro c w h
      rw [download_loop] at h
      by_cases hF : F a
      · rw [if_pos hF] at h
        rcases List.mem_cons.1 h with rfl | h2
        · exact ⟨c ((detect_prefix_of a).getD "misc"), a, List.mem_cons_self _ _, rfl⟩
        · obtain ⟨n, u, hu, he⟩ := ih _ w h2
          exact ⟨n, u, List.mem_cons_of_mem _ hu, he⟩
      · rw [if_neg hF] at h
        obtain ⟨n, u, hu, he⟩ := ih _ w h
        exact ⟨n, u, List.mem_cons_of_mem _ hu, he⟩
  · intro H G pfx fname m fuel i ms idx s hs
    obtain ⟨k, hk⟩ := scan_saves_rangeSaves H G pfx fname m fuel i ms idx
    rw [hk] at hs
    exact mem_rangeSaves k idx s hs

/-- Witness for C7 amended: a downloader write with a `.png` URL carries
the inferred `.png`; a fallback save with a `.png` asset still carries
`.jpg`. -/
theorem c7_amended_witness :
    (("misc", "001.png") ∈ download_loop (fun _ => true) ["https://e.example/p.png"] (fun _ => 1)) ∧
    (∃ n u, u ∈ ["https://e.example/p.png"] ∧
      ("misc", "001.png").2 = pad3 n ++ file_ext_for_url u) ∧
    ("001.jpg" ∈ (scan_from hOkC7 gOkAll "OGS" "full-desktop.png" 3 1999 1 0 1).2) ∧
    (∃ n, "001.jpg" = pad3 n ++ ".jpg") :=
  ⟨by decide,
   c7_amended_filenames.1 (fun _ => true) ["https://e.example/p.png"] (fun _ => 1)
     ("misc", "001.png") (by decide),
   by decide,
   c7_amended_filenames.2 hOkC7 gOkAll "OGS" "full-desktop.png" 3 1999 1 0 1
     "001.jpg" (by decide)⟩

/-- Claim C8 amended: `"a.jpg 1x, b.jpg 2x"` parses to exactly
`["a.jpg", "b.jpg"]` in order, and in general a comma-free entry of the
form `url SPACE descriptor` contributes exactly its first
space-delimited (U+0020) token: the descriptor after the first space is
discarded, but only a space — not other whitespace such as a tab —
delimits the token. -/
theorem c8_amended_space_delimited :
    parse_srcset "a.jpg 1x, b.jpg 2x" = ["a.jpg", "b.jpg"] ∧
    ∀ (u d : String), u.data ≠ [] →
      (∀ c ∈ u.data, isPyWsChar c = false ∧ c ≠ ',') →
      (∀ c ∈ d.data, c ≠ ',') →
      parse_srcset (u ++ " " ++ d) = [u] := by
  refine ⟨by decide, ?_⟩
  intro u d hne hu hd
  have hdata : (u ++ " " ++ d).data = u.data ++ ' ' :: d.data := by
    rw [strData_append, strData_append, List.append_assoc]
    rfl
  have hcomma : ∀ c ∈ u.data ++ ' ' :: d.data, c ≠ ',' := by
    intro c hc
    rcases List.mem_append.1 hc with h | h
    · exact (hu c h).2
    · rcases List.mem_cons.1 h with rfl | h2
      · decide
      · exact hd c h2
  have huws : ∀ c ∈ u.data, isPyWsChar c = false := fun c hc => (hu c hc).1
  have husp : ∀ c ∈ u.data, c ≠ ' ' := by
    intro c hc he
    have hws := (hu c hc).1
    rw [he] at hws
    exact absurd hws (by decide)
  have hstrip1 : (u.data ++ ' ' :: d.data).dropWhile isPyWsChar = u.data ++ ' ' :: d.data := by
    rw [dropWhile_append_split, dropWhile_eq_self_of_all _ _ huws, if_neg hne]
  have hstrip : stripWs (u.data ++ ' ' :: d.data)
      = u.data ++ dropWhileEndL isPyWsChar (' ' :: d.data) := by
    unfold stripWs
    rw [hstrip1]
    exact dropWhileEndL_append_of_all _ _ _ huws
  have htail : dropWhileEndL isPyWsChar (' ' :: d.data) = [] ∨
      ∃ d2, dropWhileEndL isPyWsChar (' ' :: d.data) = ' ' :: d2 := by
    unfold dropWhileEndL
    rw [show (' ' :: d.data).reverse = d.data.reverse ++ [' '] from by simp,
      dropWhile_append_split]
    by_cases hrev : d.data.reverse.dropWhile isPyWsChar = []
    · left
      rw [if_pos hrev]
      rfl
    · right
      rw [if_neg hrev]
      exact ⟨(d.data.reverse.dropWhile isPyWsChar).reverse, by simp⟩
  have htok : (splitOnChar ' ' (stripWs (u.data ++ ' ' :: d.data))).headD [] = u.data := by
    rw [hstrip]
    rcases htail with h | ⟨d2, h⟩
    · rw [h, List.append_nil, splitOnChar_no_sep ' ' u.data husp]
      rfl
    · rw [h, splitOnChar_append_sep ' ' u.data d2 husp]
      rfl
  have hfinal : stripWs ((splitOnChar ' ' (stripWs (u.data ++ ' ' :: d.data))).headD [])
      = u.data := by
    rw [htok]
    exact stripWs_eq_self_of_all _ huws
  simp only [parse_srcset, hdata]
  rw [splitOnChar_no_sep ',' _ hcomma]
  simp only [List.filterMap_cons, List.filterMap_nil, hfinal]
  rw [if_neg hne]

/-- Witness for C8 amended at the entry `b.jpg 2x`: the first space-
delimited token `b.jpg` is kept, the descriptor `2x` discarded. -/
theorem c8_amended_witness :
    ("b.jpg" : String).data ≠ [] ∧
    (∀ c ∈ ("b.jpg" : String).data, isPyWsChar c = false ∧ c ≠ ',') ∧
    (∀ c ∈ ("2x" : String).data, c ≠ ',') ∧
    parse_srcset ("b.jpg" ++ " " ++ "2x") = ["b.jpg"] :=
  ⟨by decide, by decide, by decide,
   c8_amended_space_delimited.2 "b.jpg" "2x" (by decide) (by decide) (by decide)⟩

end RiftScraper
